import Mathlib

/-!
Verification of the ExchangeRateViewer repository: a shallow embedding of its
date utilities, local SQLite rate store, and cache-reconciliation engine,
together with theorems settling the specified properties.

Modelling conventions used throughout:

* Calendar dates are identified with their proleptic-Gregorian day number
  (`Date.toOrdinal`, 0-based at 0001-01-01, so Python's
  `datetime.date.toordinal` minus 1).  Python `datetime.date` values are
  order-isomorphic to these numbers, `timedelta.days` of a difference is the
  difference of the numbers, and the `"YYYY-MM-DD"` strings the code stores
  and compares in SQLite are in order-preserving bijection with them, so the
  SQL `BETWEEN`/`ORDER BY date` clauses and Python date comparisons are
  embedded as arithmetic on these day numbers.
* The `rates(date, currency, rate)` SQLite table is embedded as a
  `List Row` in rowid (insertion) order.  A database in which the table is
  missing or unreadable (the `sqlite3.OperationalError` case) is `none` in
  `Option (List Row)`.
* `rate` values (SQLite `REAL`) are embedded as rationals; the code never
  computes with them, it only stores and returns them.
-/

/-- Calendar date record, mirroring Python `datetime.date` fields. -/
structure Date where
  year : Nat
  month : Nat
  day : Nat
  deriving DecidableEq, Repr

/-- Gregorian leap-year test, as in the Gregorian calendar used by
`datetime.date`. -/
def isLeap (y : Nat) : Bool :=
  (y % 4 == 0 && y % 100 != 0) || (y % 400 == 0)

/-- Number of days in a month of a given year. -/
def daysInMonth (y m : Nat) : Nat :=
  if m = 2 then (if isLeap y then 29 else 28)
  else if m = 4 ∨ m = 6 ∨ m = 9 ∨ m = 11 then 30
  else 31

/-- Validity of a `Date`, matching the range `datetime.date` accepts
(`MINYEAR = 1`, `MAXYEAR = 9999`, day within the month). -/
def Date.valid (d : Date) : Bool :=
  1 ≤ d.year && d.year ≤ 9999 && 1 ≤ d.month && d.month ≤ 12 &&
    1 ≤ d.day && d.day ≤ daysInMonth d.year d.month

/-- Days in all years strictly before year `y` (proleptic Gregorian). -/
def daysBeforeYear (y : Nat) : Nat :=
  365 * (y - 1) + (y - 1) / 4 - (y - 1) / 100 + (y - 1) / 400

/-- Days in the months of year `y` strictly before month `m`. -/
def daysBeforeMonth (y m : Nat) : Nat :=
  ((List.range (m - 1)).map (fun k => daysInMonth y (k + 1))).sum

/-- Day number of a date: 0-based count of days since 0001-01-01, i.e.
Python's `date.toordinal()` minus 1.  0001-01-01 is a Monday. -/
def Date.toOrdinal (d : Date) : Nat :=
  daysBeforeYear d.year + daysBeforeMonth d.year d.month + (d.day - 1)

/-- ISO weekday of a day number: Monday = 1 .. Sunday = 7, mirroring
`datetime.date.isoweekday()` (day 0 = 0001-01-01 is a Monday). -/
def isoweekday (rd : Nat) : Nat :=
  rd % 7 + 1

/-- Embedding of the loop in `is_data_already_in_cache`
(`src/exchange_rate_viewer/app.py` lines 69-78 and the identical loop in
`modules/sqldb_communication.py` lines 97-105): for `i` in
`range((end_date - start_date).days)` take `start_date + timedelta(days=i)`
and keep it when `isoweekday() < 6`.  A negative Python day difference gives
an empty `range`, matching truncated `Nat` subtraction here.  The code
collects the `"YYYY-MM-DD"` strings of these dates; we keep the day numbers
(the two are in bijection). -/
def dates_to_check (s e : Nat) : List Nat :=
  ((List.range (e - s)).map (fun i => s + i)).filter (fun d => isoweekday d < 6)

/-- Embedding of the dead helper `define_all_days_to_check`
(`modules/datetime_operations.py` lines 52-62): it iterates exactly like the
live loop but appends `start_date` itself on every non-weekend iteration
instead of the computed date (only the start day number can ever appear in
its output). -/
def define_all_days_to_check (start_date : Nat) (days_difference : Nat) : List Nat :=
  ((List.range days_difference).map (fun i => start_date + i)).filterMap
    (fun d => if isoweekday d < 6 then some start_date else none)

/-- One row of the `rates(date, currency, rate)` table. -/
structure Row where
  date : Nat
  currency : String
  rate : ℚ
  deriving DecidableEq, Repr

/-- Key equality on rows: same `(date, currency)` pair, the uniqueness key
of the table (`UNIQUE(date, currency)` in `sqldb_communication.create_table`,
and the dedup key of the `DELETE` in `app.py`). -/
def sameKey (a b : Row) : Bool :=
  a.date == b.date && a.currency == b.currency

/-- Stable insertion of a row into a list sorted by `date`, placing the new
row after existing rows with the same date. -/
def insRow (r : Row) : List Row → List Row
  | [] => [r]
  | x :: xs => if x.date ≤ r.date then x :: insRow r xs else r :: x :: xs

/-- Stable sort by `date`, embedding the SQL `ORDER BY date`. -/
def sortByDate (l : List Row) : List Row :=
  l.foldl (fun acc r => insRow r acc) []

/-- Embedding of `get_data_from_local_db` (`app.py` lines 186-215, identical
to `modules/sqldb_communication.get_data_from_sql_table`):
`SELECT date, rate FROM rates WHERE currency = ? AND date BETWEEN ? AND ?
ORDER BY date`, returning `(date, rate)` pairs. -/
def get_data_from_local_db (st : List Row) (cur : String) (s e : Nat) :
    List (Nat × ℚ) :=
  (sortByDate (st.filter
      (fun x => x.currency == cur && decide (s ≤ x.date) && decide (x.date ≤ e)))).map
    (fun x => (x.date, x.rate))

/-- Date column of the cache query inside `is_data_already_in_cache`: the
same `SELECT ... BETWEEN ... ORDER BY date` with the row factory projecting
the first column (`row[0]`), so a list of dates. -/
def cached_dates (st : List Row) (cur : String) (s e : Nat) : List Nat :=
  (get_data_from_local_db st cur s e).map Prod.fst

/-- Embedding of `is_data_already_in_cache` (`app.py` lines 60-109;
`modules/sqldb_communication.py` lines 88-131, identical up to logging).
`db = none` is the state in which the `SELECT` raises
`sqlite3.OperationalError` (no readable `rates` table); the code catches it
and returns `False`.  Otherwise every enumerated business day must appear in
the cached date list. -/
def is_data_already_in_cache (db : Option (List Row)) (cur : String) (s e : Nat) :
    Bool :=
  match db with
  | none => false
  | some st => (dates_to_check s e).all (fun d => (cached_dates st cur s e).contains d)

/-- Insert-or-replace of one row: SQLite `INSERT OR REPLACE` against the
`UNIQUE(date, currency)` constraint deletes any conflicting row and inserts
the new row with a fresh (largest) rowid. -/
def insert_or_replace (st : List Row) (r : Row) : List Row :=
  st.filter (fun x => !(sameKey x r)) ++ [r]

/-- Embedding of `modules/sqldb_communication.save_currency_rates_to_db`
(lines 68-80): `executemany("INSERT OR REPLACE INTO rates VALUES (?, ?, ?)")`
over the batch, against the table created by `create_table` with
`UNIQUE(date, currency)`. -/
def save_currency_rates_to_db (st : List Row) (rows : List Row) : List Row :=
  rows.foldl insert_or_replace st

/-- Keep the first row of each `(date, currency)` key, dropping any row that
has an earlier row with the same key. -/
def dedupKeepFirst (l : List Row) : List Row :=
  l.foldl (fun acc r => if acc.any (fun x => sameKey x r) then acc else acc ++ [r]) []

/-- Embedding of the legacy `save_currency_rates_to_db` in `app.py`
(lines 158-183): `CREATE TABLE IF NOT EXISTS` (so a missing table becomes an
empty one), plain `INSERT` of the batch, then a `DELETE` of every row `r1`
for which a row `r2` with the same `(date, currency)` and a smaller rowid
exists — i.e. the earliest row per key is kept. -/
def save_currency_rates_to_db_app (db : Option (List Row)) (rows : List Row) :
    List Row :=
  dedupKeepFirst (db.getD [] ++ rows)

/-- Outcome of one remote NBP request for a currency/range, as classified by
`fetch_currency_rates` (`app.py` lines 112-131): HTTP 404 raises
`NBPConnectionError("Error 404: No data found for selected currency and/or
time frame.")`, any other non-200 status raises `NBPConnectionError` with the
status code in the message, and 200 yields the parsed rows (already shaped by
`create_rows_to_insert`). -/
inductive RemoteOutcome where
  | notFound : RemoteOutcome
  | failure : Nat → RemoteOutcome
  | success : List Row → RemoteOutcome
  deriving DecidableEq, Repr

/-- Error kinds the engine can raise, distinguished (as the spec does) by
their distinct raise sites and messages inside the single
`NBPConnectionError` class: `noDataForRange` is the 404 branch,
`upstreamFailure` the other non-success branch. -/
inductive EngineError where
  | noDataForRange : EngineError
  | upstreamFailure : Nat → EngineError
  deriving DecidableEq, Repr

deriving instance DecidableEq for Except

/-- Observable result of one engine run: the response handed to rendering
(rows or a raised error), the final database state, and the log of remote
fetch calls made (each recorded as `(currency, start, end)`). -/
structure EngineRun where
  response : Except EngineError (List (Nat × ℚ))
  finalDb : Option (List Row)
  fetchCalls : List (String × Nat × Nat)
  deriving DecidableEq, Repr

/-- Embedding of the reconciliation core of the `index` POST handler
(`app.py` lines 343-356): check the cache; if sufficient, read and return
from the local store; otherwise perform exactly one remote fetch of the full
requested range, on success merge it via `save_currency_rates_to_db` (the
`app.py` variant) and re-read from the store, and on failure let the raised
error propagate with the store untouched.  `remote` maps a request triple to
that request's outcome. -/
def get_rates (remote : String → Nat → Nat → RemoteOutcome)
    (db : Option (List Row)) (cur : String) (s e : Nat) : EngineRun :=
  if is_data_already_in_cache db cur s e then
    ⟨.ok (get_data_from_local_db (db.getD []) cur s e), db, []⟩
  else
    match remote cur s e with
    | .notFound => ⟨.error .noDataForRange, db, [(cur, s, e)]⟩
    | .failure c => ⟨.error (.upstreamFailure c), db, [(cur, s, e)]⟩
    | .success rows =>
        let st := save_currency_rates_to_db_app db rows
        ⟨.ok (get_data_from_local_db st cur s e), some st, [(cur, s, e)]⟩

/-- Result kinds of range validation, one per distinct `InvalidInputError`
message raised by `user_input_class.validate` / `Validator.run` (the spec's
`InvertedRangeError` and `RangeTooLargeError` kinds). -/
inductive RangeCheck where
  | ok : RangeCheck
  | invertedRange : RangeCheck
  | rangeTooLarge : RangeCheck
  deriving DecidableEq, Repr

/-- Embedding of `datetime_operations.start_date_after_end_date`
(lines 37-39): Python date comparison, i.e. comparison of day numbers. -/
def start_date_after_end_date (s e : Nat) : Bool :=
  decide (e < s)

/-- Embedding of `datetime_operations.max_range_exceeded` (lines 42-44):
`end - start > max_range` on Python dates, i.e. on the (possibly negative)
integer day difference. -/
def max_range_exceeded (s e : Nat) (maxRange : Int) : Bool :=
  decide ((e : Int) - (s : Int) > maxRange)

/-- The `MAX_DATE_RANGE` constant of `modules/config.py`. -/
def MAX_DATE_RANGE : Nat := 93

/-- Embedding of the date checks of `user_input_class.validate`
(lines 94-123) and `Validator.run`: first the inverted-range check, then the
93-day maximum-range check, each raising its own `InvalidInputError`
message.  The currency-presence check is independent of the dates and is not
part of range validation. -/
def validate_range (s e : Nat) : RangeCheck :=
  if start_date_after_end_date s e then .invertedRange
  else if max_range_exceeded s e (MAX_DATE_RANGE : Int) then .rangeTooLarge
  else .ok

/-- Character for a single decimal digit. -/
def digitChar (n : Nat) : Char :=
  Char.ofNat (48 + n)

/-- Four-digit zero-padded decimal representation (the `%Y` field). -/
def pad4 (n : Nat) : List Char :=
  [digitChar (n / 1000), digitChar (n / 100 % 10), digitChar (n / 10 % 10),
   digitChar (n % 10)]

/-- Two-digit zero-padded decimal representation (the `%m` / `%d` fields). -/
def pad2 (n : Nat) : List Char :=
  [digitChar (n / 10 % 10), digitChar (n % 10)]

/-- Embedding of `date_to_str` (`modules/datetime_operations.py` lines 17-19,
also `app.py` lines 304-306): `date_obj.strftime("%Y-%m-%d")`, the zero-padded
ISO form. -/
def date_to_str (d : Date) : String :=
  String.mk (pad4 d.year ++ '-' :: pad2 d.month ++ '-' :: pad2 d.day)

/-- Numeric value of a decimal digit character, `none` on a non-digit. -/
def digitVal (c : Char) : Option Nat :=
  if '0' ≤ c ∧ c ≤ '9' then some (c.toNat - 48) else none

/-- Embedding of `str_to_date` (`modules/datetime_operations.py` lines 12-14,
also `app.py` lines 50-52): `datetime.strptime(date_str, "%Y-%m-%d").date()`,
restricted to the canonical zero-padded `"YYYY-MM-DD"` form (the image of
`date_to_str`; `strptime` additionally tolerates shorter digit runs, which
never arise from formatting).  Returns `none` where `strptime` raises
`ValueError`, including on calendar-invalid field values. -/
def str_to_date (s : String) : Option Date :=
  match s.data with
  | [y1, y2, y3, y4, h1, m1, m2, h2, d1, d2] =>
    if h1 = '-' ∧ h2 = '-' then
      match digitVal y1, digitVal y2, digitVal y3, digitVal y4, digitVal m1,
          digitVal m2, digitVal d1, digitVal d2 with
      | some a, some b, some c, some dth, some e, some f, some g, some h =>
        let y := ((a * 10 + b) * 10 + c) * 10 + dth
        let m := e * 10 + f
        let dy := g * 10 + h
        if (Date.mk y m dy).valid then some (Date.mk y m dy) else none
      | _, _, _, _, _, _, _, _ => none
    else none
  | _ => none

/-- The spec-side business-day enumeration, for refinement comparison only.
Modelled from the spec's words: every date `d` with
`start <= d < end + 1 day` (inclusive of both endpoints) that is not
Saturday or Sunday, in ascending order. -/
def required_days_spec (s e : Nat) : List Nat :=
  ((List.range (e + 1 - s)).map (fun i => s + i)).filter (fun d => isoweekday d < 6)

/-- A store list has at most one row per `(date, currency)` key — the
invariant the `UNIQUE(date, currency)` constraint of
`sqldb_communication.create_table` maintains. -/
def rowsFor (st : List Row) (dt : Nat) (cur : String) : List Row :=
  st.filter (fun x => x.date == dt && x.currency == cur)

/-- Uniqueness invariant: at most one row per key. -/
def UniqueKeys (st : List Row) : Prop :=
  ∀ dt cur, (rowsFor st dt cur).length ≤ 1

/-- The last row of a batch carrying a given `(date, currency)` key, i.e.
the batch's final write for that key. -/
def lastWrite (dt : Nat) (cur : String) : List Row → Option Row
  | [] => none
  | r :: t =>
    match lastWrite dt cur t with
    | some x => some x
    | none => if r.date == dt && r.currency == cur then some r else none

/-- A row whose key does not occur in a batch. -/
def keyFree (b : List Row) (x : Row) : Bool :=
  b.all (fun r => !(sameKey x r))

/-! ### Supporting lemmas about the embedded store operations -/

theorem mem_insRow (l : List Row) (r x : Row) :
    x ∈ insRow r l ↔ x = r ∨ x ∈ l := by
  induction l with
  | nil => simp [insRow]
  | cons a t ih =>
    simp only [insRow]
    split
    · simp only [List.mem_cons, ih]
      tauto
    · simp only [List.mem_cons]

theorem mem_sortByDate_aux (l : List Row) :
    ∀ acc x, x ∈ l.foldl (fun acc r => insRow r acc) acc ↔ x ∈ l ∨ x ∈ acc := by
  induction l with
  | nil => simp
  | cons a t ih =>
    intro acc x
    simp only [List.foldl_cons, ih, mem_insRow, List.mem_cons]
    tauto

theorem mem_sortByDate (l : List Row) (x : Row) :
    x ∈ sortByDate l ↔ x ∈ l := by
  simp [sortByDate, mem_sortByDate_aux]

theorem mem_dates_to_check (s e d : Nat) :
    d ∈ dates_to_check s e ↔ s ≤ d ∧ d < e ∧ isoweekday d < 6 := by
  simp only [dates_to_check, List.mem_filter, List.mem_map, List.mem_range,
    decide_eq_true_eq]
  constructor
  · rintro ⟨⟨i, hi, rfl⟩, hw⟩
    exact ⟨Nat.le_add_right _ _, by omega, hw⟩
  · rintro ⟨h1, h2, h3⟩
    exact ⟨⟨d - s, by omega, by omega⟩, h3⟩

theorem mem_cached_dates (st : List Row) (cur : String) (s e d : Nat) :
    d ∈ cached_dates st cur s e ↔
      ∃ x ∈ st, x.currency = cur ∧ s ≤ x.date ∧ x.date ≤ e ∧ x.date = d := by
  simp only [cached_dates, get_data_from_local_db, List.map_map, List.mem_map,
    Function.comp, mem_sortByDate, List.mem_filter, Bool.and_eq_true, beq_iff_eq,
    decide_eq_true_eq]
  constructor
  · rintro ⟨x, ⟨hx, ⟨hcur, hs⟩, he⟩, rfl⟩
    exact ⟨x, hx, hcur, hs, he, rfl⟩
  · rintro ⟨x, hx, hcur, hs, he, rfl⟩
    exact ⟨x, ⟨hx, ⟨hcur, hs⟩, he⟩, rfl⟩

theorem dates_to_check_sorted (s e : Nat) :
    (dates_to_check s e).Sorted (· < ·) := by
  unfold dates_to_check
  apply List.Pairwise.sublist (List.filter_sublist _)
  exact (List.sorted_lt_range _).map _ (fun a b h => by omega)

theorem keyFree_cons (r : Row) (t : List Row) (x : Row) :
    keyFree (r :: t) x = (!(sameKey x r) && keyFree t x) := rfl

theorem insert_or_replace_append (s u : List Row) (r : Row) :
    insert_or_replace (s ++ u) r =
      s.filter (fun x => !(sameKey x r)) ++ insert_or_replace u r := by
  simp [insert_or_replace, List.filter_append, List.append_assoc]

theorem save_append (b : List Row) :
    ∀ s u : List Row, save_currency_rates_to_db (s ++ u) b =
      s.filter (keyFree b) ++ save_currency_rates_to_db u b := by
  induction b with
  | nil =>
    intro s u
    have hf : List.filter (keyFree []) s = s := by
      apply List.filter_eq_self.mpr
      intro a _
      rfl
    simp [save_currency_rates_to_db, hf]
  | cons r t ih =>
    intro s u
    simp only [save_currency_rates_to_db, List.foldl_cons]
    rw [insert_or_replace_append s u r]
    have h1 := ih (s.filter (fun x => !(sameKey x r))) (insert_or_replace u r)
    simp only [save_currency_rates_to_db] at h1
    rw [h1, List.filter_filter]
    congr 1
    apply List.filter_congr
    intro x _
    rw [keyFree_cons]
    exact Bool.and_comm _ _

theorem save_eq_filter (st b : List Row) :
    save_currency_rates_to_db st b =
      st.filter (keyFree b) ++ save_currency_rates_to_db [] b := by
  have h := save_append b st []
  rwa [List.append_nil] at h

theorem mem_save_key (b : List Row) :
    ∀ st x, x ∈ save_currency_rates_to_db st b → x ∈ st ∨ keyFree b x = false := by
  induction b with
  | nil => intro st x hx; exact Or.inl hx
  | cons r t ih =>
    intro st x hx
    simp only [save_currency_rates_to_db, List.foldl_cons] at hx
    rcases ih (insert_or_replace st r) x hx with h | h
    · simp only [insert_or_replace, List.mem_append, List.mem_filter,
        List.mem_singleton] at h
      rcases h with ⟨hmem, _⟩ | rfl
      · exact Or.inl hmem
      · right
        rw [keyFree_cons]
        have hs : sameKey x x = true := by simp [sameKey]
        simp [hs]
    · right
      rw [keyFree_cons]
      simp [h]

theorem save_idem (st b : List Row) :
    save_currency_rates_to_db (save_currency_rates_to_db st b) b =
      save_currency_rates_to_db st b := by
  have hfil : ∀ l : List Row, (l.filter (keyFree b)).filter (keyFree b) =
      l.filter (keyFree b) := by
    intro l
    rw [List.filter_filter]
    apply List.filter_congr
    intro x _
    exact Bool.and_self _
  have hnil : (save_currency_rates_to_db [] b).filter (keyFree b) = [] := by
    rw [List.filter_eq_nil_iff]
    intro a ha
    rcases mem_save_key b [] a ha with h | h
    · simp at h
    · simp [h]
  calc save_currency_rates_to_db (save_currency_rates_to_db st b) b
      = save_currency_rates_to_db
          (st.filter (keyFree b) ++ save_currency_rates_to_db [] b) b := by
        rw [← save_eq_filter]
    _ = (st.filter (keyFree b)).filter (keyFree b) ++
          save_currency_rates_to_db (save_currency_rates_to_db [] b) b :=
        save_append b _ _
    _ = st.filter (keyFree b) ++
          ((save_currency_rates_to_db [] b).filter (keyFree b) ++
            save_currency_rates_to_db [] b) := by
        rw [hfil, save_eq_filter (save_currency_rates_to_db [] b) b]
    _ = st.filter (keyFree b) ++ save_currency_rates_to_db [] b := by
        rw [hnil, List.nil_append]
    _ = save_currency_rates_to_db st b := (save_eq_filter st b).symm

theorem lastWrite_key (dt : Nat) (cur : String) (b : List Row) :
    ∀ r, lastWrite dt cur b = some r → r.date = dt ∧ r.currency = cur := by
  induction b with
  | nil => intro r h; simp [lastWrite] at h
  | cons a t ih =>
    intro r h
    simp only [lastWrite] at h
    cases hlt : lastWrite dt cur t with
    | some x =>
      rw [hlt] at h
      simp only [Option.some.injEq] at h
      subst h
      exact ih x hlt
    | none =>
      rw [hlt] at h
      by_cases hk : (a.date == dt && a.currency == cur) = true
      · rw [if_pos hk] at h
        simp only [Option.some.injEq] at h
        subst h
        simpa [Bool.and_eq_true, beq_iff_eq] using hk
      · rw [if_neg hk] at h
        simp at h

theorem rowsFor_insert_or_replace (st : List Row) (r : Row) (dt : Nat) (cur : String) :
    rowsFor (insert_or_replace st r) dt cur =
      if r.date = dt ∧ r.currency = cur then [r] else rowsFor st dt cur := by
  unfold rowsFor insert_or_replace
  rw [List.filter_append, List.filter_filter]
  by_cases hk : r.date = dt ∧ r.currency = cur
  · rw [if_pos hk]
    have h1 : st.filter
        (fun a => (a.date == dt && a.currency == cur) && !(sameKey a r)) = [] := by
      rw [List.filter_eq_nil_iff]
      intro a _ hcond
      simp only [Bool.and_eq_true, beq_iff_eq, Bool.not_eq_true'] at hcond
      obtain ⟨⟨h2, h3⟩, h4⟩ := hcond
      have h5 : sameKey a r = true := by
        simp [sameKey, h2, h3, hk.1, hk.2]
      rw [h5] at h4
      simp at h4
    rw [h1, List.nil_append]
    simp [hk.1, hk.2]
  · rw [if_neg hk]
    have h2 : List.filter (fun x => x.date == dt && x.currency == cur) [r] = [] := by
      simp only [List.filter, Bool.and_eq_true, beq_iff_eq]
      split
      · rename_i hcond
        simp only [Bool.and_eq_true, beq_iff_eq] at hcond
        exact absurd hcond hk
      · rfl
    rw [h2, List.append_nil]
    apply List.filter_congr
    intro a _
    by_cases ha : (a.date == dt && a.currency == cur) = true
    · have ha2 : sameKey a r = false := by
        simp only [Bool.and_eq_true, beq_iff_eq] at ha
        simp only [sameKey, Bool.and_eq_false_iff, beq_eq_false_iff_ne, ne_eq]
        by_cases hd : a.date = r.date
        · right
          intro hc
          exact hk ⟨hd.symm.trans ha.1, hc.symm.trans ha.2⟩
        · exact Or.inl hd
      rw [ha, ha2]
      rfl
    · have ha2 := Bool.eq_false_iff.mpr ha
      rw [ha2]
      rfl

theorem rowsFor_save (dt : Nat) (cur : String) (b : List Row) :
    ∀ st, rowsFor (save_currency_rates_to_db st b) dt cur =
      match lastWrite dt cur b with
      | some r => [r]
      | none => rowsFor st dt cur := by
  induction b with
  | nil => intro st; rfl
  | cons r t ih =>
    intro st
    simp only [save_currency_rates_to_db, List.foldl_cons, lastWrite]
    have h1 := ih (insert_or_replace st r)
    simp only [save_currency_rates_to_db] at h1
    rw [h1]
    cases hlt : lastWrite dt cur t with
    | some x => rfl
    | none =>
      simp only []
      rw [rowsFor_insert_or_replace]
      by_cases hk : r.date = dt ∧ r.currency = cur
      · rw [if_pos hk]
        have hb : (r.date == dt && r.currency == cur) = true := by
          simp [hk.1, hk.2]
        rw [hb]
        simp
      · rw [if_neg hk]
        have hb : (r.date == dt && r.currency == cur) = false := by
          rw [Bool.eq_false_iff]
          intro hc
          simp only [Bool.and_eq_true, beq_iff_eq] at hc
          exact hk hc
        rw [hb]
        simp

theorem get_data_eq_of_rowsFor_singleton (st : List Row) (cur : String) (dt : Nat)
    (r : Row) (h : rowsFor st dt cur = [r]) :
    get_data_from_local_db st cur dt dt = [(r.date, r.rate)] := by
  unfold get_data_from_local_db
  have hf : st.filter
      (fun x => x.currency == cur && decide (dt ≤ x.date) && decide (x.date ≤ dt)) =
      rowsFor st dt cur := by
    unfold rowsFor
    apply List.filter_congr
    intro x _
    rw [Bool.eq_iff_iff]
    simp only [Bool.and_eq_true, beq_iff_eq, decide_eq_true_eq]
    constructor
    · rintro ⟨⟨hc, hs⟩, he⟩
      exact ⟨by omega, hc⟩
    · rintro ⟨hd, hc⟩
      exact ⟨⟨hc, by omega⟩, by omega⟩
  rw [hf, h]
  rfl

theorem daysInMonth_le (y m : Nat) : daysInMonth y m ≤ 31 := by
  unfold daysInMonth
  split_ifs <;> omega

theorem digitVal_digitChar (k : Nat) (hk : k < 10) :
    digitVal (digitChar k) = some k := by
  interval_cases k <;> decide

/-! ### Claim theorems -/

/-- C10: for every valid calendar date `d`,
`parse_date(format_date(d)) = d`: formatting a date with
`date_to_str` (`strftime("%Y-%m-%d")`) and parsing the text back with
`str_to_date` (`strptime(..., "%Y-%m-%d")`) yields the original date. -/
theorem str_to_date_date_to_str (d : Date) (h : d.valid = true) :
    str_to_date (date_to_str d) = some d := by
  obtain ⟨y, m, dy⟩ := d
  have hv := h
  simp only [Date.valid, Bool.and_eq_true, decide_eq_true_eq] at hv
  obtain ⟨⟨⟨⟨⟨h1, h2⟩, h3⟩, h4⟩, h5⟩, h6⟩ := hv
  have hdy : dy ≤ 31 := le_trans h6 (daysInMonth_le y m)
  show str_to_date (String.mk (pad4 y ++ '-' :: pad2 m ++ '-' :: pad2 dy)) = _
  simp only [pad4, pad2, List.cons_append, List.nil_append]
  simp only [str_to_date]
  rw [digitVal_digitChar (y / 1000) (by omega),
      digitVal_digitChar (y / 100 % 10) (by omega),
      digitVal_digitChar (y / 10 % 10) (by omega),
      digitVal_digitChar (y % 10) (by omega),
      digitVal_digitChar (m / 10 % 10) (by omega),
      digitVal_digitChar (m % 10) (by omega),
      digitVal_digitChar (dy / 10 % 10) (by omega),
      digitVal_digitChar (dy % 10) (by omega)]
  have hy : ((y / 1000 * 10 + y / 100 % 10) * 10 + y / 10 % 10) * 10 + y % 10 = y := by
    omega
  have hm : m / 10 % 10 * 10 + m % 10 = m := by omega
  have hd2 : dy / 10 % 10 * 10 + dy % 10 = dy := by omega
  simp only [hy, hm, hd2]
  rw [if_pos ⟨trivial, trivial⟩, if_pos h]

theorem get_rates_cache_hit (remote : String → Nat → Nat → RemoteOutcome)
    (st : List Row) (cur : String) (s e : Nat)
    (hc : is_data_already_in_cache (some st) cur s e = true) :
    get_rates remote (some st) cur s e =
      ⟨.ok (get_data_from_local_db st cur s e), some st, []⟩ := by
  unfold get_rates
  rw [hc]
  rfl

theorem get_rates_cache_miss (remote : String → Nat → Nat → RemoteOutcome)
    (db : Option (List Row)) (cur : String) (s e : Nat)
    (hc : is_data_already_in_cache db cur s e = false) :
    (get_rates remote db cur s e).fetchCalls = [(cur, s, e)]
    ∧ ∀ rows, remote cur s e = RemoteOutcome.success rows →
        get_rates remote db cur s e =
          ⟨.ok (get_data_from_local_db (save_currency_rates_to_db_app db rows) cur s e),
            some (save_currency_rates_to_db_app db rows), [(cur, s, e)]⟩ := by
  constructor
  · unfold get_rates
    rw [hc]
    cases hr : remote cur s e <;> rfl
  · intro rows hr
    unfold get_rates
    rw [hc, hr]
    rfl

theorem cache_bool_iff (db : Option (List Row)) (cur : String) (s e : Nat) :
    is_data_already_in_cache db cur s e = true ↔
      ∃ st, db = some st ∧ ∀ d ∈ dates_to_check s e, d ∈ cached_dates st cur s e := by
  cases db with
  | none => simp [is_data_already_in_cache]
  | some st =>
    simp only [is_data_already_in_cache, List.all_eq_true, Option.some.injEq]
    constructor
    · intro hall
      refine ⟨st, rfl, fun d hd => ?_⟩
      simpa using hall d hd
    · rintro ⟨st2, rfl, hmem⟩
      intro d hd
      simpa using hmem d hd

/-- C1 (amended): for any request whose enumeration of required business
days (the code iterates over the half-open range
`[start_date, end_date)`, end date excluded) is non-empty, `get_rates`
skips the remote fetch iff the store is readable and every enumerated day
already has a cached observation for the currency; otherwise exactly one
remote fetch of the entire requested range is performed and, on success,
its result is merged into the store before the final read. -/
theorem cache_sufficiency_iff (remote : String → Nat → Nat → RemoteOutcome)
    (db : Option (List Row)) (cur : String) (s e : Nat)
    (h : dates_to_check s e ≠ []) :
    ((get_rates remote db cur s e).fetchCalls = [] ↔
      ∃ st, db = some st ∧ ∀ d ∈ dates_to_check s e, d ∈ cached_dates st cur s e)
    ∧ ((get_rates remote db cur s e).fetchCalls ≠ [] →
        (get_rates remote db cur s e).fetchCalls = [(cur, s, e)]
        ∧ ∀ rows, remote cur s e = RemoteOutcome.success rows →
            (get_rates remote db cur s e).finalDb =
              some (save_currency_rates_to_db_app db rows)
            ∧ (get_rates remote db cur s e).response =
              .ok (get_data_from_local_db (save_currency_rates_to_db_app db rows) cur s e)) := by
  constructor
  · constructor
    · intro hfetch
      by_cases hc : is_data_already_in_cache db cur s e = true
      · exact (cache_bool_iff db cur s e).mp hc
      · exfalso
        have hc2 : is_data_already_in_cache db cur s e = false :=
          Bool.eq_false_iff.mpr hc
        have hcalls := (get_rates_cache_miss remote db cur s e hc2).1
        rw [hcalls] at hfetch
        simp at hfetch
    · rintro ⟨st, rfl, hmem⟩
      have hc : is_data_already_in_cache (some st) cur s e = true :=
        (cache_bool_iff (some st) cur s e).mpr ⟨st, rfl, hmem⟩
      rw [get_rates_cache_hit remote st cur s e hc]
  · intro hne
    have hc2 : is_data_already_in_cache db cur s e = false := by
      by_cases hc : is_data_already_in_cache db cur s e = true
      · exfalso
        obtain ⟨st, rfl, hmem⟩ := (cache_bool_iff db cur s e).mp hc
        rw [get_rates_cache_hit remote st cur s e hc] at hne
        exact hne rfl
      · exact Bool.eq_false_iff.mpr hc
    obtain ⟨hcalls, hsucc⟩ := get_rates_cache_miss remote db cur s e hc2
    refine ⟨hcalls, fun rows hr => ?_⟩
    rw [hsucc rows hr]
    exact ⟨rfl, rfl⟩

/-- C1 witness: concrete insufficient-cache run exercising the amended
theorem — required days `[2021-01-04]` non-empty, store empty, so a fetch
of the full range is recorded. -/
theorem cache_sufficiency_iff_witness :
    dates_to_check 737793 737794 ≠ []
    ∧ (get_rates (fun _ _ _ => RemoteOutcome.success [Row.mk 737793 "EUR" 4])
        (some []) "EUR" 737793 737794).fetchCalls = [("EUR", 737793, 737794)] := by
  refine ⟨by decide, ?_⟩
  have h := cache_sufficiency_iff
    (fun _ _ _ => RemoteOutcome.success [Row.mk 737793 "EUR" 4])
    (some []) "EUR" 737793 737794 (by decide)
  refine (h.2 ?_).1
  intro hc
  obtain ⟨st, hst, hmem⟩ := h.1.mp hc
  injection hst with hst
  subst hst
  exact absurd (hmem 737793 (by decide)) (by decide)

/-- C1 counterexample: the store caches EUR for Thursday 2021-01-07 only;
for the request (EUR, 2021-01-07, 2021-01-08) the claim's inclusive set of
required business days also contains Friday 2021-01-08, which has no cached
observation, yet `get_rates` performs no remote fetch — refuting the claim
that a missing required business day in the inclusive range forces a
fetch. -/
theorem cache_sufficiency_counterexample :
    required_days_spec 737796 737797 = [737796, 737797]
    ∧ 737797 ∉ cached_dates [Row.mk 737796 "EUR" 4] "EUR" 737796 737797
    ∧ (get_rates (fun _ _ _ => RemoteOutcome.success [])
        (some [Row.mk 737796 "EUR" 4]) "EUR" 737796 737797).fetchCalls = [] := by
  decide

/-- C2 (amended): the business-day enumeration used by the code
(`dates_to_check`) returns, in ascending order, exactly the dates `d` with
`start ≤ d < end` — the end date excluded — that are not Saturday or
Sunday; on the concrete request (2021-01-01, 2021-01-10) it returns
precisely the spec's literal list 2021-01-01, 2021-01-04, 2021-01-05,
2021-01-06, 2021-01-07, 2021-01-08 (the excluded end 2021-01-10 and
2021-01-09 fall on the weekend). -/
theorem business_days_enumeration :
    (∀ s e d, d ∈ dates_to_check s e ↔ s ≤ d ∧ d < e ∧ isoweekday d < 6)
    ∧ (∀ s e, (dates_to_check s e).Sorted (· < ·))
    ∧ dates_to_check (Date.mk 2021 1 1).toOrdinal (Date.mk 2021 1 10).toOrdinal =
        [Date.mk 2021 1 1, Date.mk 2021 1 4, Date.mk 2021 1 5, Date.mk 2021 1 6,
          Date.mk 2021 1 7, Date.mk 2021 1 8].map Date.toOrdinal :=
  ⟨mem_dates_to_check, dates_to_check_sorted, by decide⟩

/-- C2 counterexample: 2021-01-05 (a Tuesday) lies in the inclusive range
[2021-01-04, 2021-01-05] and is a business day, yet the enumeration for
that request omits it — the upper endpoint is excluded, refuting the
claim's inclusive-endpoint characterization. -/
theorem business_days_enumeration_counterexample :
    (Date.mk 2021 1 4).toOrdinal ≤ (Date.mk 2021 1 5).toOrdinal
    ∧ (Date.mk 2021 1 5).toOrdinal ≤ (Date.mk 2021 1 5).toOrdinal
    ∧ isoweekday ((Date.mk 2021 1 5).toOrdinal) < 6
    ∧ (Date.mk 2021 1 5).toOrdinal ∉
        dates_to_check (Date.mk 2021 1 4).toOrdinal (Date.mk 2021 1 5).toOrdinal := by
  decide

/-- C3 (amended): when the local store is unreadable (the `SELECT` raises
`sqlite3.OperationalError`), `is_data_already_in_cache` catches the error
and returns `False` — an ordinary cache miss — so `get_rates` proceeds to
exactly one remote fetch of the requested range; no distinct
storage-unavailable error kind exists in the code. -/
theorem store_unavailable_is_cache_miss (remote : String → Nat → Nat → RemoteOutcome)
    (cur : String) (s e : Nat) :
    is_data_already_in_cache none cur s e = false
    ∧ (get_rates remote none cur s e).fetchCalls = [(cur, s, e)] :=
  ⟨rfl, (get_rates_cache_miss remote none cur s e rfl).1⟩

/-- C3 counterexample: with the store unreadable, the request
(EUR, 2021-01-04, 2021-01-05) is reported as a cache miss (`False`, not a
fatal storage error), `get_rates` performs a remote fetch, and the run
completes with an ordinary non-error response — the unavailability was
silently converted into a cache-miss outcome triggering a remote fetch,
which the claim asserts can never happen. -/
theorem store_unavailable_counterexample :
    is_data_already_in_cache none "EUR" 737793 737794 = false
    ∧ (get_rates (fun _ _ _ => RemoteOutcome.success []) none "EUR"
        737793 737794).fetchCalls = [("EUR", 737793, 737794)]
    ∧ (get_rates (fun _ _ _ => RemoteOutcome.success []) none "EUR"
        737793 737794).response = .ok [] := by
  decide

/-- C5: when the cache is insufficient and the remote reports no published
data for the currency/range (the HTTP-404 branch of
`fetch_currency_rates`), `get_rates` propagates that no-data error
unmodified to its caller and the local store is left unchanged — no partial
upsert of any rows occurs. -/
theorem no_data_error_propagates (remote : String → Nat → Nat → RemoteOutcome)
    (db : Option (List Row)) (cur : String) (s e : Nat)
    (h1 : is_data_already_in_cache db cur s e = false)
    (h2 : remote cur s e = RemoteOutcome.notFound) :
    get_rates remote db cur s e =
      ⟨.error EngineError.noDataForRange, db, [(cur, s, e)]⟩ := by
  unfold get_rates
  rw [h1, h2]
  rfl

/-- C5 witness: empty store, one required business day, remote answers 404:
the error propagates and the store is unchanged. -/
theorem no_data_error_propagates_witness :
    is_data_already_in_cache (some []) "EUR" 737793 737794 = false
    ∧ get_rates (fun _ _ _ => RemoteOutcome.notFound) (some []) "EUR" 737793 737794 =
        ⟨.error EngineError.noDataForRange, some [], [("EUR", 737793, 737794)]⟩ :=
  ⟨by decide,
    no_data_error_propagates (fun _ _ _ => RemoteOutcome.notFound) (some [])
      "EUR" 737793 737794 (by decide) rfl⟩

/-- C6: when the requested range contains no business days (every date of
the inclusive range is a Saturday or Sunday), `get_rates` on a readable
store contacts no remote service, leaves the store unchanged, and returns
exactly the rows the store already holds for that currency and range. -/
theorem weekend_range_no_fetch (remote : String → Nat → Nat → RemoteOutcome)
    (st : List Row) (cur : String) (s e : Nat)
    (h : ∀ d, s ≤ d → d ≤ e → ¬ isoweekday d < 6) :
    get_rates remote (some st) cur s e =
      ⟨.ok (get_data_from_local_db st cur s e), some st, []⟩ := by
  have hempty : dates_to_check s e = [] := by
    rw [List.eq_nil_iff_forall_not_mem]
    intro d hd
    rw [mem_dates_to_check] at hd
    exact h d hd.1 (Nat.le_of_lt hd.2.1) hd.2.2
  have hc : is_data_already_in_cache (some st) cur s e = true := by
    unfold is_data_already_in_cache
    rw [hempty]
    rfl
  exact get_rates_cache_hit remote st cur s e hc

/-- C6 witness: the Saturday-to-Sunday range (2021-01-02, 2021-01-03)
contains no business day, so no remote contact happens and the stored
rows are served as-is. -/
theorem weekend_range_no_fetch_witness :
    get_rates (fun _ _ _ => RemoteOutcome.notFound)
        (some [Row.mk 737791 "EUR" 4]) "EUR" 737791 737792 =
      ⟨.ok (get_data_from_local_db [Row.mk 737791 "EUR" 4] "EUR" 737791 737792),
        some [Row.mk 737791 "EUR" 4], []⟩ := by
  apply weekend_range_no_fetch
  intro d h1 h2
  simp only [isoweekday]
  omega

/-- C9: for a request with start_date = end_date the enumeration of
required days is empty — the loop bound `(end - start).days` is `0` and
excludes the end date — so on a readable store `get_rates` treats the
cache as sufficient, never contacts the remote service, and returns only
what the store already held, even when the single requested date is a
business day with no cached rate. -/
theorem same_day_request_no_fetch (remote : String → Nat → Nat → RemoteOutcome)
    (st : List Row) (cur : String) (s : Nat) :
    dates_to_check s s = []
    ∧ get_rates remote (some st) cur s s =
        ⟨.ok (get_data_from_local_db st cur s s), some st, []⟩ := by
  have hempty : dates_to_check s s = [] := by
    unfold dates_to_check
    simp
  refine ⟨hempty, ?_⟩
  have hc : is_data_already_in_cache (some st) cur s s = true := by
    unfold is_data_already_in_cache
    rw [hempty]
    rfl
  exact get_rates_cache_hit remote st cur s s hc

/-- C4: on a store satisfying the unique-key invariant maintained by the
`UNIQUE(date, currency)` constraint, upserting a batch with
`save_currency_rates_to_db` (`INSERT OR REPLACE`) makes the last write for
a key win — a subsequent query for that key returns exactly the rate of
the batch's final write for it — and the store still holds at most one row
per `(currency, date)` key. -/
theorem upsert_last_write_wins (st b : List Row) (dt : Nat) (cur : String)
    (r : Row) (h1 : UniqueKeys st) (h2 : lastWrite dt cur b = some r) :
    get_data_from_local_db (save_currency_rates_to_db st b) cur dt dt =
      [(dt, r.rate)]
    ∧ UniqueKeys (save_currency_rates_to_db st b) := by
  have hrows : rowsFor (save_currency_rates_to_db st b) dt cur = [r] := by
    rw [rowsFor_save dt cur b st, h2]
  constructor
  · have h3 := get_data_eq_of_rowsFor_singleton _ cur dt r hrows
    rw [h3, (lastWrite_key dt cur b r h2).1]
  · intro dt2 cur2
    rw [rowsFor_save dt2 cur2 b st]
    cases hl : lastWrite dt2 cur2 b with
    | some x => simp
    | none => exact h1 dt2 cur2

/-- C4 witness: an empty store upserted with two writes for the same key
(rates 4 then 5): the query returns the later rate 5 and the store keeps a
single row per key. -/
theorem upsert_last_write_wins_witness :
    get_data_from_local_db
        (save_currency_rates_to_db []
          [Row.mk 737793 "EUR" 4, Row.mk 737793 "EUR" 5]) "EUR" 737793 737793 =
      [(737793, (5 : ℚ))]
    ∧ UniqueKeys (save_currency_rates_to_db []
        [Row.mk 737793 "EUR" 4, Row.mk 737793 "EUR" 5]) :=
  upsert_last_write_wins [] [Row.mk 737793 "EUR" 4, Row.mk 737793 "EUR" 5]
    737793 "EUR" (Row.mk 737793 "EUR" 5)
    (fun dt cur => by simp [rowsFor]) (by decide)

/-- C7: range validation succeeds iff start ≤ end and end − start ≤ 93
days; it fails with the inverted-range error exactly when start > end, and
with the range-too-large error exactly when end − start exceeds 93 days
(so a range of exactly 93 calendar days is accepted). -/
theorem validate_range_cases (s e : Nat) :
    (validate_range s e = RangeCheck.ok ↔ s ≤ e ∧ (e : Int) - (s : Int) ≤ 93)
    ∧ (validate_range s e = RangeCheck.invertedRange ↔ e < s)
    ∧ (validate_range s e = RangeCheck.rangeTooLarge ↔ (e : Int) - (s : Int) > 93) := by
  unfold validate_range start_date_after_end_date max_range_exceeded MAX_DATE_RANGE
  simp only [decide_eq_true_eq]
  split_ifs with ha hb
  · exact ⟨iff_of_false (by simp) (by omega), iff_of_true rfl ha,
      iff_of_false (by simp) (by omega)⟩
  · exact ⟨iff_of_false (by simp) (by omega), iff_of_false (by simp) (by omega),
      iff_of_true rfl hb⟩
  · exact ⟨iff_of_true rfl (by omega), iff_of_false (by simp) (by omega),
      iff_of_false (by simp) (by omega)⟩

/-- C8: upserting the same batch twice in succession with
`save_currency_rates_to_db` leaves the store in exactly the same state
(the same list of rows) as upserting it once, so any subsequent query
returns identical rows. -/
theorem upsert_idempotent (st b : List Row) (cur : String) (s e : Nat) :
    save_currency_rates_to_db (save_currency_rates_to_db st b) b =
      save_currency_rates_to_db st b
    ∧ get_data_from_local_db
        (save_currency_rates_to_db (save_currency_rates_to_db st b) b) cur s e =
      get_data_from_local_db (save_currency_rates_to_db st b) cur s e := by
  refine ⟨save_idem st b, ?_⟩
  rw [save_idem st b]

/-- C10 witness: the round trip at the concrete valid date 2021-01-01. -/
theorem str_to_date_date_to_str_witness :
    (Date.mk 2021 1 1).valid = true
    ∧ str_to_date (date_to_str (Date.mk 2021 1 1)) = some (Date.mk 2021 1 1) :=
  ⟨by decide, str_to_date_date_to_str (Date.mk 2021 1 1) (by decide)⟩
